import Mathlib

set_option maxRecDepth 4000

namespace PromptGen

/-- Model of Python str.replace for a nonempty pattern, on character lists,
driven by a fuel argument so that it is structurally recursive (the fuel is
always instantiated with the length of the scanned list, which suffices since
every step consumes at least one character).  Scans left to right; at each
position, if the pattern is a prefix, emits the replacement and skips the
pattern (replaced text is not re-scanned); otherwise copies one character. -/
def replaceF (pat rep : List Char) : Nat → List Char → List Char
  | 0, l => l
  | _ + 1, [] => []
  | f + 1, c :: cs =>
    if pat.isPrefixOf (c :: cs) then rep ++ replaceF pat rep f (cs.drop (pat.length - 1))
    else c :: replaceF pat rep f cs

/-- Python s.replace(pat, rep).  The source only ever calls replace with the
nonempty literal patterns built by tokenOf; the empty-pattern case follows
Python's interleaving behavior for completeness. -/
def pyReplace (s pat rep : String) : String :=
  match pat.data with
  | [] => String.mk (rep.data ++ s.data.foldr (fun c acc => c :: (rep.data ++ acc)) [])
  | _ :: _ => String.mk (replaceF pat.data rep.data s.data.length s.data)

/-- Non-greedy scan for the closing brace pair, modelling the regex fragment
(.*?)\x7d\x7d where . does not match a newline: returns the characters before
the first closing pair together with the rest, or none if a newline or the end
of input intervenes. -/
def scanInner : List Char → Option (List Char × List Char)
  | [] => none
  | c :: cs =>
    if c = '\x7d' ∧ cs.head? = some '\x7d' then some ([], cs.tail)
    else if c = '\n' then none
    else (scanInner cs).map (fun p => (c :: p.1, p.2))

/-- One attempted match of the placeholder regex at the current position:
succeeds only on a double opening brace followed by a scanInner success. -/
def tryTok : List Char → Option (List Char × List Char)
  | c1 :: c2 :: rest => if c1 = '\x7b' ∧ c2 = '\x7b' then scanInner rest else none
  | _ => none

/-- re.findall of the placeholder pattern: leftmost matches, advancing one
character on failure and past the whole match on success.  Fuel-driven for
structural recursion; fuel = length of the list suffices. -/
def findTokensF : Nat → List Char → List (List Char)
  | 0, _ => []
  | _ + 1, [] => []
  | f + 1, c :: cs =>
    match tryTok (c :: cs) with
    | some (i, r) => i :: findTokensF f r
    | none => findTokensF f cs

/-- All placeholder names found in a template by re.findall of the pattern
matching two opening braces, a non-greedy inner text, and two closing
braces. -/
def findTokens (s : String) : List String :=
  (findTokensF s.data.length s.data).map String.mk

/-- Values of the JSON documents the tool fetches, together with the Python
values the handlers manipulate (json.loads output).  Numbers are modelled as
integers; no claim depends on float behavior. -/
inductive JValue where
  | null
  | bool (b : Bool)
  | num (n : Int)
  | str (s : String)
  | arr (items : List JValue)
  | obj (fields : List (String × JValue))

mutual
/-- Python str() of a parsed JSON value (repr is used for elements inside
containers; quotes are rendered plainly without Python's escaping rules,
which no claim depends on). -/
def pyStr : JValue → String
  | .null => "None"
  | .bool b => if b then "True" else "False"
  | .num n => toString n
  | .str s => s
  | .arr items => "[" ++ String.intercalate ", " (pyReprList items) ++ "]"
  | .obj fields => "\x7b" ++ String.intercalate ", " (pyReprFields fields) ++ "\x7d"

def pyRepr : JValue → String
  | .str s => "\x27" ++ s ++ "\x27"
  | .null => "None"
  | .bool b => if b then "True" else "False"
  | .num n => toString n
  | .arr items => "[" ++ String.intercalate ", " (pyReprList items) ++ "]"
  | .obj fields => "\x7b" ++ String.intercalate ", " (pyReprFields fields) ++ "\x7d"

def pyReprList : List JValue → List String
  | [] => []
  | v :: vs => pyRepr v :: pyReprList vs

def pyReprFields : List (String × JValue) → List String
  | [] => []
  | (k, v) :: vs => ("\x27" ++ k ++ "\x27: " ++ pyRepr v) :: pyReprFields vs
end

/-- Python truthiness of a parsed JSON value: None, False, 0, the empty
string, the empty list and the empty dict are falsy. -/
def truthy : JValue → Bool
  | .null => false
  | .bool b => b
  | .num n => n != 0
  | .str s => !(s == "")
  | .arr items => !items.isEmpty
  | .obj fields => !fields.isEmpty

def JValue.isObj : JValue → Bool
  | .obj _ => true
  | _ => false

def JValue.isStr : JValue → Bool
  | .str _ => true
  | _ => false

/-- Python d.get(key, default) for a dict d.  Every call site in the source
either guards the receiver with isinstance(..., dict) or is one of the three
top-level lookups, whose non-dict (AttributeError) path is modelled explicitly
in fetchAction; so the non-object fallback here is never reached on the
program's own paths. -/
def JValue.getD : JValue → String → JValue → JValue
  | .obj fields, k, d =>
    match fields.find? (fun p => p.1 == k) with
    | some p => p.2
    | none => d
  | _, _, d => d

/-- Python equality of the category value against a literal name: only a
string compares equal to a string. -/
def catIs (c : JValue) (name : String) : Bool :=
  match c with
  | .str s => s == name
  | _ => false

/-- The fixed list of extractable variable names (PREDEFINED_VARIABLES). -/
def PREDEFINED_VARIABLES : List String :=
  ["task_instruction", "vocabulary_list", "grammar_reference",
   "communication_reference", "guiding_questions", "can_do_statements"]

/-- PREDEFINED_VARIABLES plus the reserved answer variable
(ALL_POSSIBLE_VARIABLES). -/
def ALL_POSSIBLE_VARIABLES : List String :=
  PREDEFINED_VARIABLES ++ ["student_answer"]

/-- User-visible messages emitted through the UI framework. -/
inductive Msg where
  | error (s : String)
  | warning (s : String)
  | info (s : String)
  | success (s : String)
deriving DecidableEq

def Msg.isError : Msg → Bool
  | .error _ => true
  | _ => false

/-- Extraction from the interactions array (task_instruction and
can_do_statements), lines 46-61 of main.py.  Returns the two values together
with the warning emitted when the array is missing, empty or invalid. -/
def interactionsPart (d : JValue) : JValue × JValue × List Msg :=
  match d.getD "interactions" (.arr []) with
  | .arr (first :: _) =>
    match first with
    | .obj _ =>
      let ti := first.getD "instruction" (.str "")
      let cds :=
        match first.getD "canDoStatement" (.arr []) with
        | .arr raw =>
          let stmts := raw.filterMap fun stmt =>
            if stmt.isObj && truthy (stmt.getD "statement" .null) then
              some (stmt.getD "statement" (.str ""))
            else none
          JValue.str (String.intercalate "\n" (stmts.map fun s => "- " ++ pyStr s))
        | _ => .str ""
      (ti, cds, [])
    | _ => (.str "", .str "", [])
  | _ =>
    (.str "", .str "",
     [.warning "Could not find \x27interactions\x27 array or it\x27s empty/invalid in the JSON response."])

/-- One step of the referenceScreens loop (lines 67-79 of main.py), carried
state: collected vocabulary items, grammar reference, communication
reference. -/
def refStep (st : List String × JValue × JValue) (ref : JValue) :
    List String × JValue × JValue :=
  match ref with
  | .obj _ =>
    let category := ref.getD "category" .null
    let contents := ref.getD "contents" .null
    if contents.isObj then
      if catIs category "vocabulary" then
        match contents.getD "vocabularyList" (.arr []) with
        | .arr vl => (st.1 ++ (vl.filter truthy).map pyStr, st.2.1, st.2.2)
        | _ => st
      else if catIs category "grammar" then
        (st.1, contents.getD "reference" (.str ""), st.2.2)
      else if catIs category "communication" then
        (st.1, st.2.1, contents.getD "reference" (.str ""))
      else st
    else st
  | _ => st

/-- Extraction from the referenceScreens array (vocabulary_list,
grammar_reference, communication_reference), lines 63-83 of main.py. -/
def refPart (d : JValue) : JValue × JValue × JValue × List Msg :=
  match d.getD "referenceScreens" (.arr []) with
  | .arr screens =>
    let res := screens.foldl refStep ([], .str "", .str "")
    (.str (if res.1.isEmpty then "" else String.intercalate ", " res.1),
     res.2.1, res.2.2, [])
  | _ =>
    (.str "", .str "", .str "",
     [.warning "Could not find \x27referenceScreens\x27 array in the JSON response or it\x27s not a list."])

/-- One step of the secondaryScreens loop (lines 89-97 of main.py). -/
def secStep (acc : List String) (screen : JValue) : List String :=
  match screen with
  | .obj _ =>
    match screen.getD "contents" (.arr []) with
    | .arr itemsL =>
      acc ++ itemsL.filterMap fun item =>
        if item.isObj then
          let qt := item.getD "secondaryContent" .null
          if truthy qt then some (pyStr qt) else none
        else none
    | _ => acc
  | _ => acc

/-- Extraction from the secondaryScreens array (guiding_questions),
lines 85-101 of main.py. -/
def secPart (d : JValue) : JValue × List Msg :=
  match d.getD "secondaryScreens" (.arr []) with
  | .arr screens =>
    let qs := screens.foldl secStep []
    (.str (if qs.isEmpty then ""
           else String.intercalate "\n" (qs.map fun q => "- " ++ q)), [])
  | _ =>
    (.str "",
     [.warning "Could not find \x27secondaryScreens\x27 array in the JSON response or it\x27s not a list."])

/-- Python dict assignment m[k] = v: updates the value in place when the key
exists (preserving insertion order), appends otherwise. -/
def dictSet (m : List (String × JValue)) (k : String) (v : JValue) :
    List (String × JValue) :=
  if m.any (fun p => p.1 == k) then
    m.map (fun p => if p.1 == k then (k, v) else p)
  else m ++ [(k, v)]

/-- The reset mapping built on line 26: every predefined variable mapped to
the empty string. -/
def emptyVarsMap : List (String × JValue) :=
  PREDEFINED_VARIABLES.map (fun k => (k, .str ""))

/-- Lines 38-109 of main.py for a successfully parsed JSON object: extract
the six values and assign them into the reset mapping in source order
(lines 104-109), collecting the warnings in emission order. -/
def extractVars (d : JValue) : List (String × JValue) × List Msg :=
  let ip := interactionsPart d
  let rp := refPart d
  let sp := secPart d
  (dictSet (dictSet (dictSet (dictSet (dictSet (dictSet emptyVarsMap
      "task_instruction" ip.1)
      "vocabulary_list" rp.1)
      "grammar_reference" rp.2.1)
      "communication_reference" rp.2.2.1)
      "guiding_questions" sp.1)
      "can_do_statements" ip.2.1,
   ip.2.2 ++ rp.2.2.2 ++ sp.2)

/-- How the single blocking GET of fetch_and_populate_variables_action can
end: a transport failure (requests.exceptions.RequestException, including the
10-second timeout), a non-success HTTP status (raise_for_status), a JSON
parse failure of the body, or a successfully parsed JSON value. -/
inductive FetchOutcome where
  | netError
  | httpError
  | jsonError
  | body (d : JValue)

def FetchOutcome.isFailure : FetchOutcome → Bool
  | .netError => true
  | .httpError => true
  | .jsonError => true
  | .body _ => false

/-- Result of fetch_and_populate_variables_action: the session mapping
fetched_variable_values after the call, the returned flag, and the messages
shown to the user.  The function is total: every failure is caught and turned
into a message, never an unhandled exception. -/
structure FetchResult where
  vars : List (String × JValue)
  ok : Bool
  msgs : List Msg

/-- fetch_and_populate_variables_action (lines 20-129 of main.py).  The
mapping is reset to emptyVarsMap on line 26 before anything can fail; an
empty URL returns early with a warning; the three failure outcomes reach the
except handlers, leaving the reset mapping; a parsed body that is not a JSON
object makes the top-level .get calls raise AttributeError, reaching the
generic except handler; otherwise extraction runs and the six values are
stored. -/
def fetchAction (url : String) (outcome : FetchOutcome) : FetchResult :=
  if url == "" then
    ⟨emptyVarsMap, false, [.warning "Please enter a Content URL to fetch variables."]⟩
  else
    match outcome with
    | .netError => ⟨emptyVarsMap, false, [.info "Fetching data", .error "Error fetching URL"]⟩
    | .httpError => ⟨emptyVarsMap, false, [.info "Fetching data", .error "Error fetching URL"]⟩
    | .jsonError => ⟨emptyVarsMap, false, [.info "Fetching data", .error "Error parsing JSON response"]⟩
    | .body d =>
      if d.isObj then
        let ev := extractVars d
        ⟨ev.1, true,
         [.info "Fetching data"] ++ ev.2 ++
           [.success "Successfully fetched and processed data from URL."]⟩
      else
        ⟨emptyVarsMap, false,
         [.info "Fetching data", .error "An unexpected error occurred during fetch"]⟩

/-- dict.get(key, "") on the fetched mapping (line 138 of main.py). -/
def lookupVar (m : List (String × JValue)) (k : String) : JValue :=
  match m.find? (fun p => p.1 == k) with
  | some p => p.2
  | none => .str ""

/-- The literal placeholder pattern f-string built on lines 159 and 180. -/
def tokenOf (k : String) : String := "\x7b\x7b" ++ k ++ "\x7d\x7d"

/-- all_vars_for_template (line 138): exactly the six predefined keys, each
defaulting to the empty string. -/
def allVarsForTemplate (fetched : List (String × JValue)) : List (String × JValue) :=
  PREDEFINED_VARIABLES.map (fun k => (k, lookupVar fetched k))

/-- The replacement loop of lines 157-159 / 178-180: iterate the mapping in
insertion order and replace each allowed token by the str() of its value. -/
def applyVars (t : String) (vars : List (String × JValue)) : String :=
  vars.foldl
    (fun acc kv =>
      if ALL_POSSIBLE_VARIABLES.contains kv.1 then
        pyReplace acc (tokenOf kv.1) (pyStr kv.2)
      else acc)
    t

/-- One substitution call: the six content variables in insertion order, then
student_answer, appended last exactly as the dict assignment on line 154 /
line 175 places it. -/
def fillOne (t : String) (fetched : List (String × JValue)) (answer : String) : String :=
  applyVars t (allVarsForTemplate fetched ++ [("student_answer", JValue.str answer)])

/-- The non-whitelisted template tokens (lines 141-143): the distinct found
names minus the allowed set. -/
def nonAllowed (t : String) : List String :=
  ((findTokens t).dedup).filter (fun n => !(ALL_POSSIBLE_VARIABLES.contains n))

/-- Outputs and messages of one run of generate_prompt_action. -/
structure GenResult where
  outputs : List String
  msgs : List Msg

/-- generate_prompt_action in single-answer mode (lines 133-166). -/
def generateSingle (t : String) (fetched : List (String × JValue))
    (answerInput : String) : GenResult :=
  let warn : List Msg :=
    if (nonAllowed t).isEmpty then []
    else [.warning (String.intercalate ", " (nonAllowed t))]
  let ans := if answerInput == "" then "" else answerInput
  let note : List Msg :=
    if ans == "" && (findTokens t).contains "student_answer" then
      [.info "Note: \x27student_answer\x27 is in the template, but no answer was provided in the text box."]
    else []
  ⟨[fillOne t fetched ans], warn ++ note⟩

/-- generate_prompt_action in batch (CSV) mode (lines 168-198): one row
appended per answer, in input order; an empty or missing answer list emits a
warning and produces no rows. -/
def generateBatch (t : String) (fetched : List (String × JValue))
    (answers : List String) : GenResult :=
  let warn : List Msg :=
    if (nonAllowed t).isEmpty then []
    else [.warning (String.intercalate ", " (nonAllowed t))]
  if answers.isEmpty then
    ⟨[], warn ++ [.warning "CSV method selected, but no answers were processed from the CSV file."]⟩
  else
    ⟨answers.foldl (fun acc a => acc ++ [fillOne t fetched a]) [], warn⟩

/-- Session state of the CSV upload section: the loaded answers (None before
any successful load) and the name of the last processed upload. -/
structure UploadState where
  uploadedCsvAnswers : Option (List String)
  lastUploadedFilename : Option String
deriving DecidableEq

/-- An uploaded table that pandas parsed successfully: named columns with
their values already coerced to strings (astype(str)). -/
def Column := String × List String

/-- Lines 391-411 of main.py: a freshly uploaded, successfully parsed CSV.
The file is processed only when its name differs from the last processed one;
then the Answers column is loaded, or on a missing Answers column an error is
shown and both the answers and the remembered filename are cleared. -/
def processUpload (st : UploadState) (fileName : String)
    (cols : List (String × List String)) : UploadState × List Msg :=
  if !(some fileName == st.lastUploadedFilename) then
    match cols.find? (fun c => c.1 == "Answers") with
    | some c =>
      (⟨some c.2, some fileName⟩, [.success "Successfully read answers"])
    | none =>
      (⟨none, none⟩,
       [.error "CSV file is missing the required \x27Answers\x27 column. Please check the header."])
  else
    (st,
     if st.uploadedCsvAnswers.isSome then [.info "Using previously uploaded file"] else [])

/-- The character-list form of the placeholder token of a name. -/
def tokL (w : List Char) : List Char :=
  '\x7b' :: '\x7b' :: (w ++ ['\x7d', '\x7d'])

/-- A name containing no brace characters (true of every whitelisted
variable name). -/
def braceFree (w : List Char) : Bool :=
  w.all (fun c => !(c == '\x7b') && !(c == '\x7d'))

/-- A name containing no newline (the regex inner dot does not match one). -/
def nlFree (w : List Char) : Bool :=
  w.all (fun c => !(c == '\n'))

/-- An entry of the referenceScreens array that the source's grammar or
communication branch acts on: a dict whose contents is a dict and whose
category matches. -/
def qualCat (cat : String) (e : JValue) : Bool :=
  e.isObj && (e.getD "contents" JValue.null).isObj &&
    catIs (e.getD "category" JValue.null) cat

/-- The reference value the source reads off such an entry. -/
def refValOf (e : JValue) : JValue :=
  (e.getD "contents" JValue.null).getD "reference" (.str "")

/-- Spec-side reading of the amended last-wins rule: the reference field of
the last entry of the given category whose contents is a dict, defaulting to
the empty string. -/
def lastQualRef (cat : String) (screens : List JValue) : JValue :=
  match (screens.filter (qualCat cat)).getLast? with
  | some e => refValOf e
  | none => .str ""

/-- Spec-side reading of the ORIGINAL C5 claim, for its counterexample: the
reference field of the last entry whose category matches, regardless of the
shape of its contents (missing or malformed fields defaulting to empty, as
everywhere in the spec). -/
def lastCatRefClaim (cat : String) (screens : List JValue) : JValue :=
  match (screens.filter (fun e => catIs (e.getD "category" JValue.null) cat)).getLast? with
  | some e => refValOf e
  | none => .str ""

/-- The vocabulary items one referenceScreens entry contributes, in order:
the stringified non-falsy items of its vocabularyList when it is a
vocabulary-category entry carrying a list, nothing otherwise. -/
def vocabContrib (e : JValue) : List String :=
  if qualCat "vocabulary" e then
    match (e.getD "contents" JValue.null).getD "vocabularyList" (.arr []) with
    | .arr vl => (vl.filter truthy).map pyStr
    | _ => []
  else []

/-- Spec-side reading of C8: all vocabulary items collected over the screens
in list order. -/
def claimVocabItems (screens : List JValue) : List String :=
  screens.flatMap vocabContrib

/-- The instruction field of a document is absent or a string (hypothesis of
the amended C4). -/
def instrOk (d : JValue) : Bool :=
  match d.getD "interactions" (.arr []) with
  | .arr (first :: _) =>
    match first with
    | .obj _ => (first.getD "instruction" (.str "")).isStr
    | _ => true
  | _ => true

/-- Every reference field a grammar or communication screen carries is a
string (or absent), hypothesis of the amended C4. -/
def refsOk (d : JValue) : Bool :=
  match d.getD "referenceScreens" (.arr []) with
  | .arr screens =>
    screens.all fun e =>
      if qualCat "grammar" e || qualCat "communication" e then (refValOf e).isStr
      else true
  | _ => true

/-- A document whose instruction and reference fields, where present, are
strings. -/
def goodDoc (d : JValue) : Bool := instrOk d && refsOk d

/-- Goodness of a fetch outcome: vacuous for failures. -/
def FetchOutcome.good : FetchOutcome → Bool
  | .body d => goodDoc d
  | _ => true

theorem replaceF_fuel (pat rep : List Char) :
    ∀ (f₁ : Nat) (l : List Char) (f₂ : Nat), l.length ≤ f₁ → l.length ≤ f₂ →
      replaceF pat rep f₁ l = replaceF pat rep f₂ l := by
  intro f₁
  induction f₁ with
  | zero =>
    intro l f₂ h1 _
    have hl : l = [] := List.eq_nil_of_length_eq_zero (Nat.le_zero.mp h1)
    subst hl
    cases f₂ <;> rfl
  | succ f ih =>
    intro l f₂ h1 h2
    cases l with
    | nil => cases f₂ <;> rfl
    | cons c cs =>
      cases f₂ with
      | zero => simp at h2
      | succ g =>
        have hcs : cs.length ≤ f := by simpa using h1
        have hcs2 : cs.length ≤ g := by simpa using h2
        have hdrop : (cs.drop (pat.length - 1)).length ≤ cs.length := by
          simp [List.length_drop]
        simp only [replaceF]
        split
        · rw [ih (cs.drop (pat.length - 1)) g (le_trans hdrop hcs) (le_trans hdrop hcs2)]
        · rw [ih cs g hcs hcs2]

theorem replaceF_skips_absent (pat rep : List Char) :
    ∀ (f : Nat) (l : List Char), ¬ pat <:+: l → replaceF pat rep f l = l := by
  intro f
  induction f with
  | zero => intro l _; rfl
  | succ f ih =>
    intro l h
    cases l with
    | nil => rfl
    | cons c cs =>
      have hpre : ¬ pat.isPrefixOf (c :: cs) := fun hp =>
        h ((List.isPrefixOf_iff_prefix.mp hp).isInfix)
      have hcs : ¬ pat <:+: cs := fun hi =>
        h (hi.trans (List.suffix_cons c cs).isInfix)
      simp only [replaceF, if_neg hpre, ih cs hcs]

theorem rep_infix_replaceF (pat rep : List Char) (hp : pat ≠ []) :
    ∀ (f : Nat) (l : List Char), l.length ≤ f → pat <:+: l →
      rep <:+: replaceF pat rep f l := by
  intro f
  induction f with
  | zero =>
    intro l hl hi
    have : l = [] := List.eq_nil_of_length_eq_zero (Nat.le_zero.mp hl)
    subst this
    exact absurd (List.infix_nil.mp hi) hp
  | succ f ih =>
    intro l hl hi
    cases l with
    | nil => exact absurd (List.infix_nil.mp hi) hp
    | cons c cs =>
      by_cases hpre : pat.isPrefixOf (c :: cs)
      · simp only [replaceF, if_pos hpre]
        exact (List.prefix_append rep _).isInfix
      · have hcs : pat <:+: cs := by
          obtain ⟨s, t, hst⟩ := hi
          cases s with
          | nil =>
            exact absurd
              (List.isPrefixOf_iff_prefix.mpr ⟨t, by simpa using hst⟩) hpre
          | cons d s' =>
            refine ⟨s', t, ?_⟩
            have : d :: (s' ++ (pat ++ t)) = c :: cs := by simpa using hst
            injection this with _ h
            simpa using h
        have hlen : cs.length ≤ f := by simpa using hl
        simp only [replaceF, if_neg hpre]
        exact (ih cs hlen hcs).trans (List.suffix_cons c _).isInfix

theorem no_brace_suffix :
    ∀ (n : List Char), braceFree n → ∀ (s : List Char),
      s <:+ n ++ ['\x7d', '\x7d'] → s.head? ≠ some '\x7b' := by
  intro n
  induction n with
  | nil =>
    intro _ s hs hh
    rcases List.suffix_cons_iff.mp (by simpa using hs) with h | hs2
    · subst h; simp at hh
    · rcases List.suffix_cons_iff.mp hs2 with h | hs3
      · subst h; simp at hh
      · have : s = [] := List.suffix_nil.mp hs3
        subst this; simp at hh
  | cons c n' ih =>
    intro hb s hs hh
    have hbc : ¬(c = '\x7b') ∧ braceFree n' := by
      simp only [braceFree, List.all_cons, Bool.and_eq_true, Bool.not_eq_true',
        beq_eq_false_iff_ne, ne_eq] at hb ⊢
      exact ⟨hb.1.1, hb.2⟩
    rcases List.suffix_cons_iff.mp (by simpa using hs) with h | hs2
    · subst h
      simp only [List.head?_cons, Option.some.injEq] at hh
      exact hbc.1 hh
    · exact ih hbc.2 s hs2 hh

theorem tok_suffix_brace (n : List Char) (hn : braceFree n) (s : List Char)
    (hs : s <:+ tokL n) (hh : s.head? = some '\x7b') :
    s = tokL n ∨ s = '\x7b' :: (n ++ ['\x7d', '\x7d']) := by
  rcases List.suffix_cons_iff.mp (show s <:+ '\x7b' :: ('\x7b' :: (n ++ ['\x7d', '\x7d'])) from hs) with h | hs2
  · exact Or.inl h
  · rcases List.suffix_cons_iff.mp hs2 with h | hs3
    · exact Or.inr h
    · exact absurd hh (no_brace_suffix n hn s hs3)

theorem names_eq :
    ∀ (w n b : List Char), braceFree w → braceFree n →
      (w ++ ['\x7d', '\x7d']) <+: ((n ++ ['\x7d', '\x7d']) ++ b) → w = n := by
  intro w
  induction w with
  | nil =>
    intro n b _ hn h
    cases n with
    | nil => rfl
    | cons c n' =>
      have hc : '\x7d' = c := by
        have h' : ('\x7d' :: ['\x7d']) <+: (c :: ((n' ++ ['\x7d', '\x7d']) ++ b)) := by
          simpa using h
        exact (List.cons_prefix_cons.mp h').1
      simp only [braceFree, List.all_cons, Bool.and_eq_true, Bool.not_eq_true',
        beq_eq_false_iff_ne, ne_eq] at hn
      exact absurd hc.symm hn.1.2
  | cons x w' ih =>
    intro n b hw hn h
    have hwx : ¬(x = '\x7b') ∧ ¬(x = '\x7d') ∧ braceFree w' := by
      simp only [braceFree, List.all_cons, Bool.and_eq_true, Bool.not_eq_true',
        beq_eq_false_iff_ne, ne_eq] at hw ⊢
      exact ⟨hw.1.1, hw.1.2, hw.2⟩
    cases n with
    | nil =>
      have h' : (x :: (w' ++ ['\x7d', '\x7d'])) <+: ('\x7d' :: ('\x7d' :: b)) := by
        simpa using h
      exact absurd (List.cons_prefix_cons.mp h').1 hwx.2.1
    | cons c n' =>
      have h' : (x :: (w' ++ ['\x7d', '\x7d'])) <+: (c :: ((n' ++ ['\x7d', '\x7d']) ++ b)) := by
        simpa using h
      obtain ⟨hxc, htail⟩ := List.cons_prefix_cons.mp h'
      have hn' : braceFree n' := by
        simp only [braceFree, List.all_cons, Bool.and_eq_true] at hn
        exact hn.2
      rw [hxc, ih n' b hwx.2.2 hn' htail]

theorem tok_prefix_tok (w n b : List Char) (hw : braceFree w) (hn : braceFree n)
    (h : tokL w <+: tokL n ++ b) : w = n := by
  have h' : (w ++ ['\x7d', '\x7d']) <+: ((n ++ ['\x7d', '\x7d']) ++ b) := by
    have h2 : ('\x7b' :: ('\x7b' :: (w ++ ['\x7d', '\x7d']))) <+:
        ('\x7b' :: ('\x7b' :: ((n ++ ['\x7d', '\x7d']) ++ b))) := by
      simpa [tokL] using h
    exact (List.cons_prefix_cons.mp (List.cons_prefix_cons.mp h2).2).2
  exact names_eq w n b hw hn h'

theorem no_match_in_tok (w n : List Char) (hw : braceFree w) (hn : braceFree n)
    (hwn : w ≠ n) (u2 : List Char) (hs : u2 <:+ tokL n) (hne : u2 ≠ [])
    (b : List Char) : ¬ (tokL w <+: u2 ++ b) := by
  intro h
  cases u2 with
  | nil => exact hne rfl
  | cons c u2' =>
    have hc : c = '\x7b' := by
      have h' : ('\x7b' :: ('\x7b' :: (w ++ ['\x7d', '\x7d']))) <+: (c :: (u2' ++ b)) := by
        simpa [tokL] using h
      exact ((List.cons_prefix_cons.mp h').1).symm
    subst hc
    rcases tok_suffix_brace n hn _ hs (by simp) with h1 | h1
    · rw [h1] at h
      exact hwn (tok_prefix_tok w n b hw hn h)
    · have hu : u2' = n ++ ['\x7d', '\x7d'] := by
        injection h1
      subst hu
      have h2 : ('\x7b' :: (w ++ ['\x7d', '\x7d'])) <+: ((n ++ ['\x7d', '\x7d']) ++ b) := by
        have h3 : ('\x7b' :: ('\x7b' :: (w ++ ['\x7d', '\x7d']))) <+:
            ('\x7b' :: ((n ++ ['\x7d', '\x7d']) ++ b)) := by
          simpa [tokL] using h
        exact (List.cons_prefix_cons.mp h3).2
      cases n with
      | nil =>
        have h4 : ('\x7b' :: (w ++ ['\x7d', '\x7d'])) <+: ('\x7d' :: ('\x7d' :: b)) := by
          simp only [List.nil_append, List.cons_append] at h2
          exact h2
        have := (List.cons_prefix_cons.mp h4).1
        simp at this
      | cons d n' =>
        have h4 : ('\x7b' :: (w ++ ['\x7d', '\x7d'])) <+: (d :: ((n' ++ ['\x7d', '\x7d']) ++ b)) := by
          simpa using h2
        have hd := (List.cons_prefix_cons.mp h4).1
        simp only [braceFree, List.all_cons, Bool.and_eq_true, Bool.not_eq_true',
          beq_eq_false_iff_ne, ne_eq] at hn
        exact hn.1.1 hd.symm

theorem replaceF_cons (pat rep : List Char) (f : Nat) (c : Char) (cs : List Char) :
    replaceF pat rep (f + 1) (c :: cs) =
      if pat.isPrefixOf (c :: cs) then
        rep ++ replaceF pat rep f (cs.drop (pat.length - 1))
      else c :: replaceF pat rep f cs := rfl

theorem replaceF_through_tok (w n rep : List Char) (hw : braceFree w)
    (hn : braceFree n) (hwn : w ≠ n) :
    ∀ (u2 : List Char), u2 <:+ tokL n → ∀ (f : Nat) (b : List Char),
      (u2 ++ b).length ≤ f →
      replaceF (tokL w) rep f (u2 ++ b) =
        u2 ++ replaceF (tokL w) rep (f - u2.length) b := by
  intro u2
  induction u2 with
  | nil => intro _ f b _; simp
  | cons c u2' ih =>
    intro hs f b hf
    cases f with
    | zero => simp at hf
    | succ f =>
      have hpre : ¬ (tokL w).isPrefixOf (c :: (u2' ++ b)) := by
        intro hp
        exact no_match_in_tok w n hw hn hwn (c :: u2') hs (by simp) b
          (by simpa using List.isPrefixOf_iff_prefix.mp hp)
      have hs' : u2' <:+ tokL n := by
        obtain ⟨pre, hpre'⟩ := hs
        exact ⟨pre ++ [c], by simpa using hpre'⟩
      have hf' : (u2' ++ b).length ≤ f := by
        simp only [List.cons_append, List.length_cons] at hf
        omega
      rw [List.cons_append, replaceF_cons, if_neg hpre, ih hs' f b hf']
      simp [Nat.succ_sub_succ]

theorem replaceF_tok_survives (w n rep : List Char) (hw : braceFree w)
    (hn : braceFree n) (hwn : w ≠ n) :
    ∀ (f : Nat) (l : List Char), l.length ≤ f → tokL n <:+: l →
      tokL n <:+: replaceF (tokL w) rep f l := by
  intro f
  induction f with
  | zero =>
    intro l hl hi
    have hnil : l = [] := List.eq_nil_of_length_eq_zero (Nat.le_zero.mp hl)
    subst hnil
    exact absurd (List.infix_nil.mp hi) (by simp [tokL])
  | succ f ih =>
    intro l hl hi
    cases l with
    | nil => exact absurd (List.infix_nil.mp hi) (by simp [tokL])
    | cons c cs =>
      obtain ⟨s, t, hst⟩ := hi
      by_cases hpre : (tokL w).isPrefixOf (c :: cs)
      · by_cases hL : (tokL w).length ≤ s.length
        · have hL1 : 1 ≤ (tokL w).length := by simp [tokL]
          have hdrop : cs.drop ((tokL w).length - 1) =
              s.drop (tokL w).length ++ (tokL n ++ t) := by
            have h1 : (c :: cs).drop (tokL w).length =
                s.drop (tokL w).length ++ (tokL n ++ t) := by
              have h2 : s ++ (tokL n ++ t) = c :: cs := by simpa using hst
              rw [← h2, List.drop_append_eq_append_drop,
                Nat.sub_eq_zero_of_le hL, List.drop_zero]
            calc cs.drop ((tokL w).length - 1)
                = (c :: cs).drop ((tokL w).length - 1 + 1) := by
                  rw [List.drop_succ_cons]
              _ = s.drop (tokL w).length ++ (tokL n ++ t) := by
                  rw [Nat.sub_add_cancel hL1]; exact h1
          have hfuel : (s.drop (tokL w).length ++ (tokL n ++ t)).length ≤ f := by
            rw [← hdrop]
            have : cs.length ≤ f := by simpa using hl
            have hdl : (cs.drop ((tokL w).length - 1)).length ≤ cs.length := by
              simp [List.length_drop]
            omega
          have hinf : tokL n <:+: s.drop (tokL w).length ++ (tokL n ++ t) :=
            ⟨s.drop (tokL w).length, t, by simp⟩
          have := ih _ (by rw [← hdrop] at hfuel; exact hfuel) (hdrop ▸ hinf)
          simp only [replaceF, if_pos hpre]
          exact this.trans (List.suffix_append rep _).isInfix
        · exfalso
          push_neg at hL
          obtain ⟨r, hr⟩ := List.isPrefixOf_iff_prefix.mp hpre
          cases s with
          | nil =>
            have hXl : tokL n ++ t = c :: cs := by simpa using hst
            exact no_match_in_tok w n hw hn hwn (tokL n) (List.suffix_refl _)
              (by simp [tokL]) t ⟨r, by rw [hr, ← hXl]⟩
          | cons d s' =>
            have hX : (d :: s') ++ (tokL n ++ t) = c :: cs := by simpa using hst
            have heq : tokL w ++ r = (d :: s') ++ (tokL n ++ t) := by rw [hr, hX]
            have htake : tokL w =
                (d :: s') ++ (tokL n ++ t).take ((tokL w).length - (d :: s').length) := by
              have t1 : (tokL w ++ r).take (tokL w).length = tokL w := by
                rw [List.take_append_eq_append_take, Nat.sub_self, List.take_zero,
                  List.append_nil, List.take_length]
              have t2 : ((d :: s') ++ (tokL n ++ t)).take (tokL w).length =
                  (d :: s') ++ (tokL n ++ t).take ((tokL w).length - (d :: s').length) := by
                rw [List.take_append_eq_append_take,
                  List.take_of_length_le (Nat.le_of_lt hL)]
              calc tokL w = (tokL w ++ r).take (tokL w).length := t1.symm
                _ = ((d :: s') ++ (tokL n ++ t)).take (tokL w).length := by rw [heq]
                _ = (d :: s') ++ (tokL n ++ t).take ((tokL w).length - (d :: s').length) := t2
            have hne : (tokL n ++ t).take ((tokL w).length - (d :: s').length) ≠ [] := by
              apply List.ne_nil_of_length_pos
              rw [List.length_take]
              refine Nat.lt_min.mpr ⟨Nat.sub_pos_of_lt hL, ?_⟩
              simp [tokL]
            have hsuf : (tokL n ++ t).take ((tokL w).length - (d :: s').length) <:+ tokL w :=
              ⟨d :: s', htake.symm⟩
            have hprX : (tokL n ++ t).take ((tokL w).length - (d :: s').length) <+:
                tokL n ++ t := List.take_prefix _ _
            have hh : ((tokL n ++ t).take ((tokL w).length - (d :: s').length)).head? =
                some '\x7b' := by
              cases hu : (tokL n ++ t).take ((tokL w).length - (d :: s').length) with
              | nil => exact absurd hu hne
              | cons e u2' =>
                rw [hu] at hprX
                have hXsh : tokL n ++ t =
                    '\x7b' :: ('\x7b' :: ((n ++ ['\x7d', '\x7d']) ++ t)) := by
                  simp [tokL]
                rw [hXsh] at hprX
                rw [(List.cons_prefix_cons.mp hprX).1]
                simp
            rcases tok_suffix_brace w hw _ hsuf hh with h1 | h1
            · have hlen := congrArg List.length htake
              rw [h1] at hlen
              simp only [List.length_append, List.length_cons] at hlen
              omega
            · rw [h1] at hprX
              have hXsh : tokL n ++ t =
                  '\x7b' :: ('\x7b' :: ((n ++ ['\x7d', '\x7d']) ++ t)) := by
                simp [tokL]
              rw [hXsh] at hprX
              have h3 := (List.cons_prefix_cons.mp hprX).2
              cases w with
              | nil =>
                rw [List.nil_append] at h3
                have := (List.cons_prefix_cons.mp h3).1
                simp at this
              | cons x w' =>
                rw [List.cons_append] at h3
                have hx := (List.cons_prefix_cons.mp h3).1
                simp only [braceFree, List.all_cons, Bool.and_eq_true,
                  Bool.not_eq_true', beq_eq_false_iff_ne, ne_eq] at hw
                exact hw.1.1 hx
      · cases s with
        | nil =>
          have hXl : tokL n ++ t = c :: cs := by simpa using hst
          have hc : c = '\x7b' := by
            have h5 := congrArg List.head? hXl
            simpa [tokL] using h5.symm
          have hcs : cs = ('\x7b' :: (n ++ ['\x7d', '\x7d'])) ++ t := by
            have := congrArg List.tail hXl
            simpa [tokL] using this.symm
          have hlen : (('\x7b' :: (n ++ ['\x7d', '\x7d'])) ++ t).length ≤ f := by
            rw [← hcs]
            simpa using hl
          have hsplit := replaceF_through_tok w n rep hw hn hwn
            ('\x7b' :: (n ++ ['\x7d', '\x7d'])) ⟨['\x7b'], rfl⟩ f t hlen
          simp only [replaceF, if_neg hpre]
          rw [hcs, hsplit, hc]
          exact ⟨[], replaceF (tokL w) rep (f - ('\x7b' :: (n ++ ['\x7d', '\x7d'])).length) t,
            by simp [tokL]⟩
        | cons d s' =>
          have hst' : d :: (s' ++ (tokL n ++ t)) = c :: cs := by simpa using hst
          have hdc : d = c := by injection hst'
          have htl : s' ++ (tokL n ++ t) = cs := by injection hst'
          have hcs : tokL n <:+: cs := ⟨s', t, by rw [← htl]; simp⟩
          simp only [replaceF, if_neg hpre]
          exact (ih cs (by simpa using hl) hcs).trans (List.suffix_cons c _).isInfix

theorem scanInner_cons (c : Char) (cs : List Char) :
    scanInner (c :: cs) =
      if c = '\x7d' ∧ cs.head? = some '\x7d' then some ([], cs.tail)
      else if c = '\n' then none
      else (scanInner cs).map (fun p => (c :: p.1, p.2)) := rfl

theorem scanInner_sound : ∀ (l i r : List Char),
    scanInner l = some (i, r) → l = i ++ '\x7d' :: '\x7d' :: r := by
  intro l
  induction l with
  | nil => intro i r h; simp [scanInner] at h
  | cons c cs ih =>
    intro i r h
    rw [scanInner_cons] at h
    split_ifs at h with h1 h2
    · obtain ⟨hc, hh⟩ := h1
      simp only [Option.some.injEq, Prod.mk.injEq] at h
      obtain ⟨hi, hr⟩ := h
      cases cs with
      | nil => simp at hh
      | cons c2 cs2 =>
        simp only [List.head?_cons, Option.some.injEq] at hh
        simp only [List.tail_cons] at hr
        subst hc hh hr
        simp [← hi]
    · cases hsc : scanInner cs with
      | none => rw [hsc] at h; simp at h
      | some p =>
        rw [hsc] at h
        simp only [Option.map_some', Option.some.injEq, Prod.mk.injEq] at h
        obtain ⟨hii, hrr⟩ := h
        have hrec := ih p.1 p.2 (by rw [hsc])
        subst hii hrr
        simp [hrec]

theorem scanInner_complete : ∀ (n : List Char), braceFree n → nlFree n →
    ∀ (r : List Char), scanInner (n ++ '\x7d' :: '\x7d' :: r) = some (n, r) := by
  intro n
  induction n with
  | nil =>
    intro _ _ r
    rw [List.nil_append, scanInner_cons]
    simp
  | cons x n' ih =>
    intro hb hnl r
    have hx : ¬(x = '\x7d') ∧ braceFree n' := by
      simp only [braceFree, List.all_cons, Bool.and_eq_true, Bool.not_eq_true',
        beq_eq_false_iff_ne, ne_eq] at hb
      exact ⟨hb.1.2, hb.2⟩
    have hx2 : ¬(x = '\n') ∧ nlFree n' := by
      simp only [nlFree, List.all_cons, Bool.and_eq_true, Bool.not_eq_true',
        beq_eq_false_iff_ne, ne_eq] at hnl
      exact ⟨hnl.1, hnl.2⟩
    rw [List.cons_append, scanInner_cons, if_neg (fun hcontra => hx.1 hcontra.1),
      if_neg hx2.1, ih hx.2 hx2.2 r]
    rfl

theorem tryTok_sound : ∀ (l i r : List Char), tryTok l = some (i, r) → l = tokL i ++ r := by
  intro l i r h
  cases l with
  | nil => simp [tryTok] at h
  | cons c1 l1 =>
    cases l1 with
    | nil => simp [tryTok] at h
    | cons c2 rest =>
      rw [show tryTok (c1 :: c2 :: rest) =
          if c1 = '\x7b' ∧ c2 = '\x7b' then scanInner rest else none from rfl] at h
      split_ifs at h with h1
      · obtain ⟨hc1, hc2⟩ := h1
        have hs := scanInner_sound rest i r h
        subst hc1 hc2
        simp [tokL, hs]

theorem tryTok_complete (n : List Char) (hb : braceFree n) (hnl : nlFree n)
    (b : List Char) : tryTok (tokL n ++ b) = some (n, b) := by
  show tryTok ('\x7b' :: '\x7b' :: ((n ++ ['\x7d', '\x7d']) ++ b)) = some (n, b)
  rw [show tryTok ('\x7b' :: '\x7b' :: ((n ++ ['\x7d', '\x7d']) ++ b)) =
      scanInner ((n ++ ['\x7d', '\x7d']) ++ b) from by simp [tryTok]]
  have ha : (n ++ ['\x7d', '\x7d']) ++ b = n ++ '\x7d' :: '\x7d' :: b := by simp
  rw [ha, scanInner_complete n hb hnl b]

theorem findTokensF_cons (f : Nat) (c : Char) (cs : List Char) :
    findTokensF (f + 1) (c :: cs) =
      match tryTok (c :: cs) with
      | some (i, r) => i :: findTokensF f r
      | none => findTokensF f cs := rfl

theorem findTokensF_sound : ∀ (f : Nat) (l n : List Char),
    n ∈ findTokensF f l → tokL n <:+: l := by
  intro f
  induction f with
  | zero => intro l n h; simp [findTokensF] at h
  | succ f ih =>
    intro l n h
    cases l with
    | nil => simp [findTokensF] at h
    | cons c cs =>
      rw [findTokensF_cons] at h
      cases htt : tryTok (c :: cs) with
      | none =>
        rw [htt] at h
        exact (ih cs n h).trans (List.suffix_cons c cs).isInfix
      | some p =>
        rw [htt] at h
        obtain ⟨i, r⟩ := p
        have hl : c :: cs = tokL i ++ r := tryTok_sound _ i r htt
        rcases List.mem_cons.mp h with rfl | hmem
        · exact ⟨[], r, by rw [hl]; simp⟩
        · exact (ih r n hmem).trans (show r <:+ c :: cs from ⟨tokL i, hl.symm⟩).isInfix

theorem findTokensF_complete (n : List Char) (hb : braceFree n) (hnl : nlFree n) :
    ∀ (f : Nat) (l : List Char), l.length ≤ f → tokL n <:+: l →
      findTokensF f l ≠ [] := by
  intro f
  induction f with
  | zero =>
    intro l hl hi
    have hnil : l = [] := List.eq_nil_of_length_eq_zero (Nat.le_zero.mp hl)
    subst hnil
    exact absurd (List.infix_nil.mp hi) (by simp [tokL])
  | succ f ih =>
    intro l hl hi
    cases l with
    | nil => exact absurd (List.infix_nil.mp hi) (by simp [tokL])
    | cons c cs =>
      rw [findTokensF_cons]
      cases htt : tryTok (c :: cs) with
      | some p => simp
      | none =>
        obtain ⟨s, t, hst⟩ := hi
        cases s with
        | nil =>
          exfalso
          have hXl : c :: cs = tokL n ++ t := by
            rw [← hst]; simp
          rw [hXl, tryTok_complete n hb hnl t] at htt
          exact absurd htt (by simp)
        | cons d s' =>
          have hst' : d :: (s' ++ (tokL n ++ t)) = c :: cs := by simpa using hst
          have htl : s' ++ (tokL n ++ t) = cs := by injection hst'
          have hcs : tokL n <:+: cs := ⟨s', t, by rw [← htl]; simp⟩
          simp only [ne_eq]
          exact ih cs (by simpa using hl) hcs

theorem string_data_inj (s t : String) (h : s.data = t.data) : s = t := by
  cases s; cases t; exact congrArg String.mk h

theorem pyStr_str (a : String) : pyStr (.str a) = a := by rw [pyStr]

theorem tokenOf_data (k : String) : (tokenOf k).data = tokL k.data := by
  simp [tokenOf, tokL, String.data_append]

theorem tokenOf_data_ne_nil (k : String) : (tokenOf k).data ≠ [] := by
  simp [tokenOf_data, tokL]

theorem pyReplace_data (s pat rep : String) (h : pat.data ≠ []) :
    (pyReplace s pat rep).data = replaceF pat.data rep.data s.data.length s.data := by
  cases hd : pat.data with
  | nil => exact absurd hd h
  | cons c cs => simp [pyReplace, hd]

theorem pyReplace_skips_absent (s pat rep : String) (hp : pat.data ≠ [])
    (h : ¬ pat.data <:+: s.data) : pyReplace s pat rep = s := by
  apply string_data_inj
  rw [pyReplace_data s pat rep hp, replaceF_skips_absent pat.data rep.data s.data.length s.data h]

theorem pyReplace_tok_keeps (s : String) (w rep n : String)
    (hw : braceFree w.data) (hn : braceFree n.data) (hwn : w.data ≠ n.data)
    (h : tokL n.data <:+: s.data) :
    tokL n.data <:+: (pyReplace s (tokenOf w) rep).data := by
  rw [pyReplace_data s (tokenOf w) rep (tokenOf_data_ne_nil w), tokenOf_data]
  exact replaceF_tok_survives w.data n.data rep.data hw hn hwn s.data.length s.data
    (Nat.le_refl _) h

theorem pyReplace_rep_occurs (s pat rep : String) (hp : pat.data ≠ [])
    (h : pat.data <:+: s.data) : rep.data <:+: (pyReplace s pat rep).data := by
  rw [pyReplace_data s pat rep hp]
  exact rep_infix_replaceF pat.data rep.data hp s.data.length s.data (Nat.le_refl _) h

theorem fillOne_eq (t : String) (fetched : List (String × JValue)) (a : String) :
    fillOne t fetched a =
      pyReplace (pyReplace (pyReplace (pyReplace (pyReplace (pyReplace (pyReplace t
        (tokenOf "task_instruction") (pyStr (lookupVar fetched "task_instruction")))
        (tokenOf "vocabulary_list") (pyStr (lookupVar fetched "vocabulary_list")))
        (tokenOf "grammar_reference") (pyStr (lookupVar fetched "grammar_reference")))
        (tokenOf "communication_reference") (pyStr (lookupVar fetched "communication_reference")))
        (tokenOf "guiding_questions") (pyStr (lookupVar fetched "guiding_questions")))
        (tokenOf "can_do_statements") (pyStr (lookupVar fetched "can_do_statements")))
        (tokenOf "student_answer") a := by
  simp [fillOne, applyVars, allVarsForTemplate, PREDEFINED_VARIABLES, ALL_POSSIBLE_VARIABLES,
    pyStr_str]

theorem braceFree_whitelist : ∀ k ∈ ALL_POSSIBLE_VARIABLES, braceFree k.data = true := by
  decide

theorem nlFree_whitelist : ∀ k ∈ ALL_POSSIBLE_VARIABLES, nlFree k.data = true := by
  decide

theorem string_ne_data {a b : String} (h : a ≠ b) : a.data ≠ b.data :=
  fun hd => h (string_data_inj a b hd)

/-- Tokens of names outside the whitelist survive one whole substitution
pass: every replacement pattern is the token of a whitelisted name, and a
token with a brace-free name distinct from all whitelisted names can never
overlap such a pattern occurrence. -/
theorem fillOne_keeps_foreign_tok (t : String) (fetched : List (String × JValue))
    (a n : String) (hn : braceFree n.data)
    (hnot : ∀ k ∈ ALL_POSSIBLE_VARIABLES, n ≠ k)
    (h : tokL n.data <:+: t.data) :
    tokL n.data <:+: (fillOne t fetched a).data := by
  rw [fillOne_eq]
  apply pyReplace_tok_keeps _ _ _ _ (braceFree_whitelist _ (by decide)) hn
    (string_ne_data (Ne.symm (hnot "student_answer" (by decide))))
  apply pyReplace_tok_keeps _ _ _ _ (braceFree_whitelist _ (by decide)) hn
    (string_ne_data (Ne.symm (hnot "can_do_statements" (by decide))))
  apply pyReplace_tok_keeps _ _ _ _ (braceFree_whitelist _ (by decide)) hn
    (string_ne_data (Ne.symm (hnot "guiding_questions" (by decide))))
  apply pyReplace_tok_keeps _ _ _ _ (braceFree_whitelist _ (by decide)) hn
    (string_ne_data (Ne.symm (hnot "communication_reference" (by decide))))
  apply pyReplace_tok_keeps _ _ _ _ (braceFree_whitelist _ (by decide)) hn
    (string_ne_data (Ne.symm (hnot "grammar_reference" (by decide))))
  apply pyReplace_tok_keeps _ _ _ _ (braceFree_whitelist _ (by decide)) hn
    (string_ne_data (Ne.symm (hnot "vocabulary_list" (by decide))))
  apply pyReplace_tok_keeps _ _ _ _ (braceFree_whitelist _ (by decide)) hn
    (string_ne_data (Ne.symm (hnot "task_instruction" (by decide))))
  exact h

theorem answer_ite_id (a : String) : (if a == "" then "" else a) = a := by
  by_cases h : a = "" <;> simp [h]

theorem findTokens_nil_no_tok (t : String) (h : findTokens t = []) :
    ∀ k ∈ ALL_POSSIBLE_VARIABLES, ¬ tokL k.data <:+: t.data := by
  intro k hk hi
  have h0 : findTokensF t.data.length t.data = [] := by
    have h1 := congrArg List.length h
    simp only [findTokens, List.length_map, List.length_nil] at h1
    exact List.eq_nil_of_length_eq_zero h1
  exact findTokensF_complete k.data (braceFree_whitelist k hk) (nlFree_whitelist k hk)
    t.data.length t.data (Nat.le_refl _) hi h0

theorem fillOne_id (t : String) (fetched : List (String × JValue)) (a : String)
    (hno : ∀ k ∈ ALL_POSSIBLE_VARIABLES, ¬ tokL k.data <:+: t.data) :
    fillOne t fetched a = t := by
  have hr : ∀ (k : String), k ∈ ALL_POSSIBLE_VARIABLES → ∀ rep,
      pyReplace t (tokenOf k) rep = t := fun k hk rep =>
    pyReplace_skips_absent t (tokenOf k) rep (tokenOf_data_ne_nil k)
      (by rw [tokenOf_data]; exact hno k hk)
  rw [fillOne_eq,
    hr "task_instruction" (by decide) _,
    hr "vocabulary_list" (by decide) _,
    hr "grammar_reference" (by decide) _,
    hr "communication_reference" (by decide) _,
    hr "guiding_questions" (by decide) _,
    hr "can_do_statements" (by decide) _,
    hr "student_answer" (by decide) _]

theorem generateSingle_outputs (t : String) (fetched : List (String × JValue))
    (a : String) : (generateSingle t fetched a).outputs = [fillOne t fetched a] := by
  by_cases h : a = "" <;> simp [generateSingle, h]

theorem foldl_append_map (f : String → String) :
    ∀ (l acc : List String), l.foldl (fun acc a => acc ++ [f a]) acc = acc ++ l.map f := by
  intro l
  induction l with
  | nil => intro acc; simp
  | cons x xs ih => intro acc; rw [List.foldl_cons, ih]; simp

theorem generateBatch_outputs (t : String) (fetched : List (String × JValue))
    (answers : List String) :
    (generateBatch t fetched answers).outputs = answers.map (fillOne t fetched) := by
  cases answers with
  | nil => simp [generateBatch]
  | cons a as => simp [generateBatch, foldl_append_map]

theorem extractVars_fst (d : JValue) :
    (extractVars d).1 =
      [("task_instruction", (interactionsPart d).1),
       ("vocabulary_list", (refPart d).1),
       ("grammar_reference", (refPart d).2.1),
       ("communication_reference", (refPart d).2.2.1),
       ("guiding_questions", (secPart d).1),
       ("can_do_statements", (interactionsPart d).2.1)] := by
  simp [extractVars, emptyVarsMap, PREDEFINED_VARIABLES, dictSet]

theorem catIs_eq (c : JValue) (a b : String) (ha : catIs c a = true)
    (hb : catIs c b = true) : a = b := by
  cases c <;> simp [catIs] at ha hb ⊢
  rw [← ha, ← hb]

theorem refStep_eq (st : List String × JValue × JValue) (e : JValue) :
    refStep st e =
      (st.1 ++ vocabContrib e,
       (if qualCat "grammar" e then refValOf e else st.2.1),
       (if qualCat "communication" e then refValOf e else st.2.2)) := by
  cases e with
  | obj fields =>
    by_cases hco : ((JValue.obj fields).getD "contents" .null).isObj
    · by_cases hv : catIs ((JValue.obj fields).getD "category" .null) "vocabulary"
      · have hg : ¬ catIs ((JValue.obj fields).getD "category" .null) "grammar" = true :=
          fun h => by have := catIs_eq _ _ _ hv h; simp at this
        have hc : ¬ catIs ((JValue.obj fields).getD "category" .null) "communication" = true :=
          fun h => by have := catIs_eq _ _ _ hv h; simp at this
        cases hvl : ((JValue.obj fields).getD "contents" .null).getD "vocabularyList" (.arr []) <;>
          simp [refStep, qualCat, vocabContrib, hco, hv, hg, hc, hvl,
            (show (JValue.obj fields).isObj = true from rfl)]
      · by_cases hg : catIs ((JValue.obj fields).getD "category" .null) "grammar"
        · have hc : ¬ catIs ((JValue.obj fields).getD "category" .null) "communication" = true :=
            fun h => by have := catIs_eq _ _ _ hg h; simp at this
          simp [refStep, qualCat, vocabContrib, refValOf, hco, hv, hg, hc,
            (show (JValue.obj fields).isObj = true from rfl)]
        · by_cases hc : catIs ((JValue.obj fields).getD "category" .null) "communication" <;>
            simp [refStep, qualCat, vocabContrib, refValOf, hco, hv, hg, hc,
              (show (JValue.obj fields).isObj = true from rfl)]
    · simp [refStep, qualCat, vocabContrib, hco]
  | null => simp [refStep, vocabContrib, qualCat, JValue.isObj]
  | bool b => simp [refStep, vocabContrib, qualCat, JValue.isObj]
  | num n => simp [refStep, vocabContrib, qualCat, JValue.isObj]
  | str s => simp [refStep, vocabContrib, qualCat, JValue.isObj]
  | arr l => simp [refStep, vocabContrib, qualCat, JValue.isObj]

theorem foldl_refStep_vocab : ∀ (screens : List JValue) (st : List String × JValue × JValue),
    (screens.foldl refStep st).1 = st.1 ++ claimVocabItems screens := by
  intro screens
  induction screens with
  | nil => intro st; simp [claimVocabItems]
  | cons e rest ih =>
    intro st
    rw [List.foldl_cons, ih (refStep st e), refStep_eq]
    simp [claimVocabItems]

theorem getLast?_cons_ne {α : Type} (a : α) (l : List α) (h : l ≠ []) :
    (a :: l).getLast? = l.getLast? := by
  cases l with
  | nil => exact absurd rfl h
  | cons b bs => simp [List.getLast?]

theorem foldl_refStep_grammar :
    ∀ (screens : List JValue) (st : List String × JValue × JValue),
      (screens.foldl refStep st).2.1 =
        ((screens.filter (qualCat "grammar")).getLast?).elim st.2.1 refValOf := by
  intro screens
  induction screens with
  | nil => intro st; simp
  | cons e rest ih =>
    intro st
    rw [List.foldl_cons, ih (refStep st e), refStep_eq]
    by_cases hq : qualCat "grammar" e = true
    · rw [List.filter_cons_of_pos hq]
      cases hfr : rest.filter (qualCat "grammar") with
      | nil => simp [hq, hfr]
      | cons y ys =>
        rw [getLast?_cons_ne e (y :: ys) (by simp)]
        cases hz : (y :: ys).getLast? with
        | none => simp [List.getLast?] at hz
        | some z => simp
    · rw [List.filter_cons_of_neg hq]
      simp [hq]

theorem foldl_refStep_comm :
    ∀ (screens : List JValue) (st : List String × JValue × JValue),
      (screens.foldl refStep st).2.2 =
        ((screens.filter (qualCat "communication")).getLast?).elim st.2.2 refValOf := by
  intro screens
  induction screens with
  | nil => intro st; simp
  | cons e rest ih =>
    intro st
    rw [List.foldl_cons, ih (refStep st e), refStep_eq]
    by_cases hq : qualCat "communication" e = true
    · rw [List.filter_cons_of_pos hq]
      cases hfr : rest.filter (qualCat "communication") with
      | nil => simp [hq, hfr]
      | cons y ys =>
        rw [getLast?_cons_ne e (y :: ys) (by simp)]
        cases hz : (y :: ys).getLast? with
        | none => simp [List.getLast?] at hz
        | some z => simp
    · rw [List.filter_cons_of_neg hq]
      simp [hq]

theorem mem_of_getLast?_eq {α : Type} (l : List α) (a : α) (h : l.getLast? = some a) :
    a ∈ l := by
  have hx : a ∈ l.getLast? := by rw [h]; rfl
  obtain ⟨hne, heq⟩ := List.mem_getLast?_eq_getLast hx
  rw [heq]
  exact List.getLast_mem hne

theorem lookupVar_empty : ∀ k ∈ PREDEFINED_VARIABLES, lookupVar emptyVarsMap k = .str "" := by
  intro k hk
  fin_cases hk <;> rfl

theorem fillOne_answer_occurs (t : String) (fetched : List (String × JValue)) (a : String)
    (hsa : tokL ("student_answer" : String).data <:+: t.data) :
    a.data <:+: (fillOne t fetched a).data := by
  rw [fillOne_eq]
  apply pyReplace_rep_occurs _ _ _ (tokenOf_data_ne_nil _)
  rw [tokenOf_data]
  apply pyReplace_tok_keeps _ _ _ _ (by decide) (by decide) (by decide)
  apply pyReplace_tok_keeps _ _ _ _ (by decide) (by decide) (by decide)
  apply pyReplace_tok_keeps _ _ _ _ (by decide) (by decide) (by decide)
  apply pyReplace_tok_keeps _ _ _ _ (by decide) (by decide) (by decide)
  apply pyReplace_tok_keeps _ _ _ _ (by decide) (by decide) (by decide)
  apply pyReplace_tok_keeps _ _ _ _ (by decide) (by decide) (by decide)
  exact hsa

theorem refPart_vocab_isStr (d : JValue) : (refPart d).1.isStr = true := by
  cases h : d.getD "referenceScreens" (.arr []) <;> simp [refPart, h, JValue.isStr]

theorem secPart_isStr (d : JValue) : (secPart d).1.isStr = true := by
  cases h : d.getD "secondaryScreens" (.arr []) <;> simp [secPart, h, JValue.isStr]

theorem interactionsPart_cds_isStr (d : JValue) : (interactionsPart d).2.1.isStr = true := by
  cases h : d.getD "interactions" (.arr []) with
  | arr l =>
    cases l with
    | nil => simp [interactionsPart, h, JValue.isStr]
    | cons first rest =>
      cases first with
      | obj fs =>
        cases hcd : (JValue.obj fs).getD "canDoStatement" (.arr []) <;>
          simp [interactionsPart, h, hcd, JValue.isStr]
      | null => simp [interactionsPart, h, JValue.isStr]
      | bool b => simp [interactionsPart, h, JValue.isStr]
      | num n => simp [interactionsPart, h, JValue.isStr]
      | str s => simp [interactionsPart, h, JValue.isStr]
      | arr l2 => simp [interactionsPart, h, JValue.isStr]
  | null => simp [interactionsPart, h, JValue.isStr]
  | bool b => simp [interactionsPart, h, JValue.isStr]
  | num n => simp [interactionsPart, h, JValue.isStr]
  | str s => simp [interactionsPart, h, JValue.isStr]
  | obj fs => simp [interactionsPart, h, JValue.isStr]

theorem interactionsPart_ti_isStr (d : JValue) (h : instrOk d = true) :
    (interactionsPart d).1.isStr = true := by
  cases hi : d.getD "interactions" (.arr []) with
  | arr l =>
    cases l with
    | nil => simp [interactionsPart, hi, JValue.isStr]
    | cons first rest =>
      cases first with
      | obj fs =>
        simp only [instrOk, hi] at h
        simp only [interactionsPart, hi]
        exact h
      | null => simp [interactionsPart, hi, JValue.isStr]
      | bool b => simp [interactionsPart, hi, JValue.isStr]
      | num n => simp [interactionsPart, hi, JValue.isStr]
      | str s => simp [interactionsPart, hi, JValue.isStr]
      | arr l2 => simp [interactionsPart, hi, JValue.isStr]
  | null => simp [interactionsPart, hi, JValue.isStr]
  | bool b => simp [interactionsPart, hi, JValue.isStr]
  | num n => simp [interactionsPart, hi, JValue.isStr]
  | str s => simp [interactionsPart, hi, JValue.isStr]
  | obj fs => simp [interactionsPart, hi, JValue.isStr]

theorem refPart_gr_isStr (d : JValue) (h : refsOk d = true) :
    (refPart d).2.1.isStr = true := by
  cases hr : d.getD "referenceScreens" (.arr []) with
  | arr screens =>
    simp only [refPart, hr]
    rw [foldl_refStep_grammar]
    cases hL : (screens.filter (qualCat "grammar")).getLast? with
    | none => simp [JValue.isStr]
    | some e =>
      simp only [Option.elim]
      have hmem := mem_of_getLast?_eq _ _ hL
      obtain ⟨hmem', hq⟩ := List.mem_filter.mp hmem
      simp only [refsOk, hr, List.all_eq_true] at h
      have h2 := h e hmem'
      simpa [hq] using h2
  | null => simp [refPart, hr, JValue.isStr]
  | bool b => simp [refPart, hr, JValue.isStr]
  | num n => simp [refPart, hr, JValue.isStr]
  | str s => simp [refPart, hr, JValue.isStr]
  | obj fs => simp [refPart, hr, JValue.isStr]

theorem refPart_cr_isStr (d : JValue) (h : refsOk d = true) :
    (refPart d).2.2.1.isStr = true := by
  cases hr : d.getD "referenceScreens" (.arr []) with
  | arr screens =>
    simp only [refPart, hr]
    rw [foldl_refStep_comm]
    cases hL : (screens.filter (qualCat "communication")).getLast? with
    | none => simp [JValue.isStr]
    | some e =>
      simp only [Option.elim]
      have hmem := mem_of_getLast?_eq _ _ hL
      obtain ⟨hmem', hq⟩ := List.mem_filter.mp hmem
      simp only [refsOk, hr, List.all_eq_true] at h
      have h2 := h e hmem'
      simpa [hq] using h2
  | null => simp [refPart, hr, JValue.isStr]
  | bool b => simp [refPart, hr, JValue.isStr]
  | num n => simp [refPart, hr, JValue.isStr]
  | str s => simp [refPart, hr, JValue.isStr]
  | obj fs => simp [refPart, hr, JValue.isStr]

theorem fetchAction_keys (url : String) (o : FetchOutcome) :
    (fetchAction url o).vars.map Prod.fst = PREDEFINED_VARIABLES := by
  have hempty : emptyVarsMap.map Prod.fst = PREDEFINED_VARIABLES := rfl
  by_cases hu : (url == "") = true
  · simp [fetchAction, hu, hempty]
  · cases o with
    | netError => simp [fetchAction, hu, hempty]
    | httpError => simp [fetchAction, hu, hempty]
    | jsonError => simp [fetchAction, hu, hempty]
    | body d =>
      by_cases hd : d.isObj = true
      · simp only [fetchAction, hu, Bool.false_eq_true, if_false, hd, if_true]
        rw [extractVars_fst]
        simp [PREDEFINED_VARIABLES]
      · simp [fetchAction, hu, hd, hempty]

theorem fetchAction_vars_body (d : JValue) (url : String) (hu : (url == "") = false)
    (hd : d.isObj = true) :
    (fetchAction url (.body d)).vars = (extractVars d).1 := by
  simp [fetchAction, hu, hd]

/-- Claim C1, counterexample: the claim says a substituted value is never
itself re-scanned for placeholders, but the replacements run sequentially, so
the value substituted for task_instruction (replaced first) IS re-scanned when
it contains the token of a variable replaced later: here the value
containing the student_answer token is expanded to the answer GOT instead of
surviving verbatim. -/
theorem C1_counterexample :
    fillOne "\x7b\x7btask_instruction\x7d\x7d"
      [("task_instruction", JValue.str "\x7b\x7bstudent_answer\x7d\x7d")] "GOT" = "GOT" ∧
    ¬ tokL ("student_answer" : String).data <:+: ("GOT" : String).data :=
  ⟨by decide, by decide⟩

/-- Claim C1, amended: substitution replaces the whitelisted tokens
sequentially in a fixed order (the six content variables in whitelist order,
then student_answer last), so a value is re-scanned for tokens of variables
replaced later; a value containing the text of an earlier variable's token
is not expanded further: if the template contains the grammar_reference token
and the value supplied for grammar_reference contains the task_instruction
token as text, that text appears verbatim (unexpanded) in the output, because
task_instruction was replaced before grammar_reference's value was
inserted. -/
theorem C1_sequential_not_reexpanded (t : String) (fetched : List (String × JValue))
    (a : String)
    (h1 : tokL ("grammar_reference" : String).data <:+: t.data)
    (h2 : tokL ("task_instruction" : String).data <:+:
      (pyStr (lookupVar fetched "grammar_reference")).data) :
    tokL ("task_instruction" : String).data <:+: (fillOne t fetched a).data := by
  rw [fillOne_eq]
  apply pyReplace_tok_keeps _ _ _ _ (by decide) (by decide) (by decide)
  apply pyReplace_tok_keeps _ _ _ _ (by decide) (by decide) (by decide)
  apply pyReplace_tok_keeps _ _ _ _ (by decide) (by decide) (by decide)
  apply pyReplace_tok_keeps _ _ _ _ (by decide) (by decide) (by decide)
  refine h2.trans (pyReplace_rep_occurs _ (tokenOf "grammar_reference") _
    (tokenOf_data_ne_nil _) ?_)
  rw [tokenOf_data]
  apply pyReplace_tok_keeps _ _ _ _ (by decide) (by decide) (by decide)
  apply pyReplace_tok_keeps _ _ _ _ (by decide) (by decide) (by decide)
  exact h1

/-- Witness for the amended C1 at a concrete template, mapping and answer. -/
theorem C1_witness :
    tokL ("task_instruction" : String).data <:+:
      (fillOne "\x7b\x7bgrammar_reference\x7d\x7d"
        [("grammar_reference", JValue.str "\x7b\x7btask_instruction\x7d\x7d")] "x").data :=
  C1_sequential_not_reexpanded _ _ _ (by decide) (by decide)

/-- Claim C2 (confirmed): every fetch that ends in a transport failure, a
non-success HTTP status, or a JSON parse failure aborts as a whole: the
session mapping holds the six variables reset to empty strings, the action
returns false, and an error message is surfaced to the user; the action is a
total function, so no exception escapes and the session continues. -/
theorem C2_fetch_failure_resets (url : String) (o : FetchOutcome)
    (hurl : url ≠ "") (hfail : o.isFailure = true) :
    (fetchAction url o).vars = emptyVarsMap ∧
    (∀ k ∈ PREDEFINED_VARIABLES, lookupVar (fetchAction url o).vars k = .str "") ∧
    (fetchAction url o).ok = false ∧
    (fetchAction url o).msgs.any Msg.isError = true := by
  have hu : (url == "") = false := by simpa using hurl
  cases o with
  | body d => simp [FetchOutcome.isFailure] at hfail
  | netError =>
    refine ⟨by simp [fetchAction, hu], ?_, by simp [fetchAction, hu],
      by simp [fetchAction, hu, Msg.isError]⟩
    intro k hk
    rw [show (fetchAction url FetchOutcome.netError).vars = emptyVarsMap from
      by simp [fetchAction, hu]]
    exact lookupVar_empty k hk
  | httpError =>
    refine ⟨by simp [fetchAction, hu], ?_, by simp [fetchAction, hu],
      by simp [fetchAction, hu, Msg.isError]⟩
    intro k hk
    rw [show (fetchAction url FetchOutcome.httpError).vars = emptyVarsMap from
      by simp [fetchAction, hu]]
    exact lookupVar_empty k hk
  | jsonError =>
    refine ⟨by simp [fetchAction, hu], ?_, by simp [fetchAction, hu],
      by simp [fetchAction, hu, Msg.isError]⟩
    intro k hk
    rw [show (fetchAction url FetchOutcome.jsonError).vars = emptyVarsMap from
      by simp [fetchAction, hu]]
    exact lookupVar_empty k hk

/-- Witness for C2 at a concrete URL and a transport failure. -/
theorem C2_witness :
    (fetchAction "http://u" .netError).vars = emptyVarsMap ∧
    (∀ k ∈ PREDEFINED_VARIABLES,
      lookupVar (fetchAction "http://u" .netError).vars k = .str "") ∧
    (fetchAction "http://u" .netError).ok = false ∧
    (fetchAction "http://u" .netError).msgs.any Msg.isError = true :=
  C2_fetch_failure_resets "http://u" .netError (by decide) rfl

/-- Claim C3 (confirmed): for a batch of N answers, generation produces
exactly N outputs, in input order, the i-th being the single substitution
call on the i-th answer with the one shared fetched mapping (so the six
content variables are identical across the batch; only the answer differs). -/
theorem C3_batch_one_output_per_answer (t : String) (fetched : List (String × JValue))
    (answers : List String) :
    (generateBatch t fetched answers).outputs = answers.map (fillOne t fetched) ∧
    (generateBatch t fetched answers).outputs.length = answers.length := by
  refine ⟨generateBatch_outputs t fetched answers, ?_⟩
  rw [generateBatch_outputs, List.length_map]

/-- Claim C9 (confirmed): a template in which the placeholder pattern finds
no token is returned unchanged by substitution, whatever the variable values
and the answer. -/
theorem C9_no_token_identity (t : String) (fetched : List (String × JValue))
    (a : String) (h : findTokens t = []) :
    fillOne t fetched a = t ∧ (generateSingle t fetched a).outputs = [t] := by
  have hid := fillOne_id t fetched a (findTokens_nil_no_tok t h)
  exact ⟨hid, by rw [generateSingle_outputs, hid]⟩

/-- Witness for C9 on a concrete placeholder-free template. -/
theorem C9_witness :
    fillOne "no placeholders here." [] "ans" = "no placeholders here." ∧
    (generateSingle "no placeholders here." [] "ans").outputs = ["no placeholders here."] :=
  C9_no_token_identity _ _ _ (by decide)

/-- Claim C10, counterexample: the claim promises that a whitelisted token
inside the supplied answer appears verbatim in the generated output, but when
the template does not contain the student_answer token the answer is never
inserted at all: here the answer is exactly the task_instruction token and
the output is the bare template. -/
theorem C10_counterexample :
    tokL ("task_instruction" : String).data <:+:
      ("\x7b\x7btask_instruction\x7d\x7d" : String).data ∧
    (generateSingle "x" [] "\x7b\x7btask_instruction\x7d\x7d").outputs = ["x"] ∧
    ¬ tokL ("task_instruction" : String).data <:+: ("x" : String).data :=
  ⟨by decide, by decide, by decide⟩

/-- Claim C10, amended: provided the template contains the student_answer
token, the six content variables are replaced first, the answer is inserted
last and its text is not re-scanned, so any whitelisted token occurring
inside the supplied answer appears verbatim in the generated output, in both
single and batch mode. -/
theorem C10_answer_tokens_verbatim (t : String) (fetched : List (String × JValue))
    (w : String) (_hw : w ∈ ALL_POSSIBLE_VARIABLES)
    (hsa : tokL ("student_answer" : String).data <:+: t.data) :
    (∀ answer : String, tokL w.data <:+: answer.data →
      ∀ out ∈ (generateSingle t fetched answer).outputs, tokL w.data <:+: out.data) ∧
    (∀ answers : List String, ∀ a ∈ answers, tokL w.data <:+: a.data →
      ∃ out ∈ (generateBatch t fetched answers).outputs, tokL w.data <:+: out.data) := by
  constructor
  · intro answer hval out hout
    rw [generateSingle_outputs] at hout
    rw [List.mem_singleton.mp hout]
    exact hval.trans (fillOne_answer_occurs t fetched answer hsa)
  · intro answers a ha hval
    refine ⟨fillOne t fetched a, ?_, hval.trans (fillOne_answer_occurs t fetched a hsa)⟩
    rw [generateBatch_outputs]
    exact List.mem_map_of_mem _ ha

/-- Witness for the amended C10 at a concrete template and answer. -/
theorem C10_witness :
    tokL ("task_instruction" : String).data <:+:
      (fillOne "\x7b\x7bstudent_answer\x7d\x7d" []
        "\x7b\x7btask_instruction\x7d\x7d").data :=
  (C10_answer_tokens_verbatim "\x7b\x7bstudent_answer\x7d\x7d" []
    "task_instruction" (by decide) (by decide)).1
    "\x7b\x7btask_instruction\x7d\x7d" (by decide)
    (fillOne "\x7b\x7bstudent_answer\x7d\x7d" [] "\x7b\x7btask_instruction\x7d\x7d")
    (by rw [generateSingle_outputs]; exact List.mem_singleton.mpr rfl)

theorem lookupVar_extract (d : JValue) :
    lookupVar (extractVars d).1 "task_instruction" = (interactionsPart d).1 ∧
    lookupVar (extractVars d).1 "vocabulary_list" = (refPart d).1 ∧
    lookupVar (extractVars d).1 "grammar_reference" = (refPart d).2.1 ∧
    lookupVar (extractVars d).1 "communication_reference" = (refPart d).2.2.1 ∧
    lookupVar (extractVars d).1 "guiding_questions" = (secPart d).1 ∧
    lookupVar (extractVars d).1 "can_do_statements" = (interactionsPart d).2.1 := by
  refine ⟨?_, ?_, ?_, ?_, ?_, ?_⟩ <;> (rw [extractVars_fst]; simp [lookupVar])

/-- Claim C4, counterexample: the claim says every value in the extracted
mapping is a string, but a non-string JSON instruction field is stored
unconverted: extraction of a document whose instruction is the number 5
leaves the number itself in the mapping. -/
theorem C4_counterexample :
    lookupVar ((fetchAction "u" (.body (.obj [("interactions",
      .arr [.obj [("instruction", .num 5)]])]))).vars) "task_instruction" = .num 5 ∧
    (JValue.num 5).isStr = false :=
  ⟨rfl, rfl⟩

/-- Claim C4, amended: the mapping always contains exactly the six fixed
extractable names and no other keys; the three constructed values
(vocabulary_list, guiding_questions, can_do_statements) are always strings;
and whenever the document's instruction and reference fields are absent or
strings, all six values are strings.  A non-string JSON value in an
instruction or reference field is stored unconverted and only stringified at
substitution time. -/
theorem C4_mapping_shape (url : String) (o : FetchOutcome) :
    ((fetchAction url o).vars.map Prod.fst = PREDEFINED_VARIABLES) ∧
    ((lookupVar (fetchAction url o).vars "vocabulary_list").isStr = true ∧
     (lookupVar (fetchAction url o).vars "guiding_questions").isStr = true ∧
     (lookupVar (fetchAction url o).vars "can_do_statements").isStr = true) ∧
    (o.good = true → ∀ k ∈ PREDEFINED_VARIABLES,
      (lookupVar (fetchAction url o).vars k).isStr = true) := by
  have hsplit : (fetchAction url o).vars = emptyVarsMap ∨
      ∃ d, o = FetchOutcome.body d ∧ (fetchAction url o).vars = (extractVars d).1 ∧
        (o.good = true → goodDoc d = true) := by
    by_cases hu : (url == "") = true
    · left; simp [fetchAction, hu]
    · cases o with
      | body d =>
        by_cases hd : d.isObj = true
        · right
          exact ⟨d, rfl, fetchAction_vars_body d url (by simpa using hu) hd, fun h => h⟩
        · left; simp [fetchAction, hu, hd]
      | netError => left; simp [fetchAction, hu]
      | httpError => left; simp [fetchAction, hu]
      | jsonError => left; simp [fetchAction, hu]
  rcases hsplit with hv | ⟨d, rfl, hv, hgd⟩
  · refine ⟨fetchAction_keys url o, ⟨?_, ?_, ?_⟩, ?_⟩
    · rw [hv, lookupVar_empty "vocabulary_list" (by decide)]; rfl
    · rw [hv, lookupVar_empty "guiding_questions" (by decide)]; rfl
    · rw [hv, lookupVar_empty "can_do_statements" (by decide)]; rfl
    · intro _ k hk
      rw [hv, lookupVar_empty k hk]
      rfl
  · obtain ⟨l1, l2, l3, l4, l5, l6⟩ := lookupVar_extract d
    refine ⟨fetchAction_keys url _, ⟨?_, ?_, ?_⟩, ?_⟩
    · rw [hv, l2]; exact refPart_vocab_isStr d
    · rw [hv, l5]; exact secPart_isStr d
    · rw [hv, l6]; exact interactionsPart_cds_isStr d
    · intro hg k hk
      have hgd2 : goodDoc d = true := hgd hg
      have hio : instrOk d = true := by
        simp only [goodDoc, Bool.and_eq_true] at hgd2; exact hgd2.1
      have hro : refsOk d = true := by
        simp only [goodDoc, Bool.and_eq_true] at hgd2; exact hgd2.2
      fin_cases hk
      · rw [hv, l1]; exact interactionsPart_ti_isStr d hio
      · rw [hv, l2]; exact refPart_vocab_isStr d
      · rw [hv, l3]; exact refPart_gr_isStr d hro
      · rw [hv, l4]; exact refPart_cr_isStr d hro
      · rw [hv, l5]; exact secPart_isStr d
      · rw [hv, l6]; exact interactionsPart_cds_isStr d

/-- Witness for the amended C4 on a concrete well-typed document, with the
inner hypothesis discharged. -/
theorem C4_witness :
    (lookupVar (fetchAction "u" (.body (.obj [("interactions",
      .arr [.obj [("instruction", .str "hi")]])]))).vars "task_instruction").isStr = true :=
  (C4_mapping_shape "u" (.body (.obj [("interactions",
    .arr [.obj [("instruction", .str "hi")]])]))).2.2 rfl "task_instruction" (by decide)

/-- Claim C5, counterexample: the claim says the grammar_reference is the
reference field of the last grammar-category entry, but a grammar entry whose
contents is not a dict is skipped outright: with a second grammar entry
lacking contents, extraction keeps the first entry's reference A while the
claim's last-entry reading yields the empty string. -/
theorem C5_counterexample :
    lookupVar (extractVars (.obj [("referenceScreens", .arr
      [.obj [("category", .str "grammar"), ("contents", .obj [("reference", .str "A")])],
       .obj [("category", .str "grammar")]])])).1 "grammar_reference" = .str "A" ∧
    lastCatRefClaim "grammar"
      [.obj [("category", .str "grammar"), ("contents", .obj [("reference", .str "A")])],
       .obj [("category", .str "grammar")]] = .str "" ∧
    ([(.obj [("category", .str "grammar"), ("contents", .obj [("reference", .str "A")])] : JValue),
      .obj [("category", .str "grammar")]].filter
        (fun e => catIs (e.getD "category" .null) "grammar")).length = 2 ∧
    JValue.str "A" ≠ JValue.str "" :=
  ⟨rfl, rfl, rfl, by simp⟩

/-- Claim C5, amended: among referenceScreens entries, the LAST entry of the
given category whose contents is a dict wins: its reference field (default
empty) becomes grammar_reference / communication_reference; category entries
whose contents is missing or not a dict are skipped and leave the previous
value intact. -/
theorem C5_last_qualifying_wins (d : JValue) (screens : List JValue)
    (hd : d.getD "referenceScreens" (.arr []) = .arr screens) :
    lookupVar (extractVars d).1 "grammar_reference" = lastQualRef "grammar" screens ∧
    lookupVar (extractVars d).1 "communication_reference" =
      lastQualRef "communication" screens := by
  obtain ⟨l1, l2, l3, l4, l5, l6⟩ := lookupVar_extract d
  constructor
  · rw [l3]
    simp only [refPart, hd]
    rw [foldl_refStep_grammar]
    cases hL : (screens.filter (qualCat "grammar")).getLast? <;> simp [lastQualRef, hL]
  · rw [l4]
    simp only [refPart, hd]
    rw [foldl_refStep_comm]
    cases hL : (screens.filter (qualCat "communication")).getLast? <;> simp [lastQualRef, hL]

/-- Witness for the amended C5 on a concrete list with duplicate grammar
entries: the last qualifying one wins. -/
theorem C5_witness :
    lookupVar (extractVars (.obj [("referenceScreens", .arr
      [.obj [("category", .str "grammar"), ("contents", .obj [("reference", .str "A")])],
       .obj [("category", .str "grammar"), ("contents", .obj [("reference", .str "B")])]])])).1
      "grammar_reference" =
    lastQualRef "grammar"
      [.obj [("category", .str "grammar"), ("contents", .obj [("reference", .str "A")])],
       .obj [("category", .str "grammar"), ("contents", .obj [("reference", .str "B")])]] :=
  (C5_last_qualifying_wins
    (.obj [("referenceScreens", .arr
      [.obj [("category", .str "grammar"), ("contents", .obj [("reference", .str "A")])],
       .obj [("category", .str "grammar"), ("contents", .obj [("reference", .str "B")])]])])
    [.obj [("category", .str "grammar"), ("contents", .obj [("reference", .str "A")])],
     .obj [("category", .str "grammar"), ("contents", .obj [("reference", .str "B")])]]
    rfl).1

/-- Claim C7, counterexample: an upload whose filename equals the previously
processed one is skipped entirely, even if its table lacks the Answers
column: the prior answers are retained and no error is reported, contradicting
the claim for every uploaded batch table. -/
theorem C7_counterexample :
    (processUpload ⟨some ["old"], some "f.csv"⟩ "f.csv" [("Responses", ["x"])]).1 =
      ⟨some ["old"], some "f.csv"⟩ ∧
    ((processUpload ⟨some ["old"], some "f.csv"⟩ "f.csv" [("Responses", ["x"])]).2.any
      Msg.isError) = false :=
  ⟨rfl, rfl⟩

/-- Claim C7, amended: for an upload whose filename differs from the last
processed one and whose columns do not include one literally named Answers,
batch loading fails as a whole: an error is reported, no answers are
accepted, and the previously loaded answers (and remembered filename) are
cleared. -/
theorem C7_missing_answers_aborts (st : UploadState) (fileName : String)
    (cols : List (String × List String))
    (hnew : some fileName ≠ st.lastUploadedFilename)
    (hmiss : ∀ c ∈ cols, c.1 ≠ "Answers") :
    (processUpload st fileName cols).1.uploadedCsvAnswers = none ∧
    (processUpload st fileName cols).1.lastUploadedFilename = none ∧
    (processUpload st fileName cols).2.any Msg.isError = true := by
  have hfind : cols.find? (fun c => c.1 == "Answers") = none :=
    List.find?_eq_none.mpr (fun c hc => by simpa using hmiss c hc)
  have hcond : (some fileName == st.lastUploadedFilename) = false := by
    simpa using hnew
  simp [processUpload, hcond, hfind, Msg.isError]

/-- Witness for the amended C7 on a concrete fresh upload without an Answers
column. -/
theorem C7_witness :
    (processUpload ⟨some ["p"], some "g.csv"⟩ "f.csv" [("Responses", ["x"])]).1.uploadedCsvAnswers
      = none ∧
    (processUpload ⟨some ["p"], some "g.csv"⟩ "f.csv"
      [("Responses", ["x"])]).1.lastUploadedFilename = none ∧
    (processUpload ⟨some ["p"], some "g.csv"⟩ "f.csv" [("Responses", ["x"])]).2.any
      Msg.isError = true :=
  C7_missing_answers_aborts ⟨some ["p"], some "g.csv"⟩ "f.csv" [("Responses", ["x"])]
    (by decide) (by decide)

/-- Claim C8 (confirmed): vocabulary_list is the comma-space join of the
stringified non-falsy items of the vocabularyList of every vocabulary-category
entry, collected in list order across the whole referenceScreens array. -/
theorem C8_vocabulary_collection (d : JValue) (screens : List JValue)
    (hd : d.getD "referenceScreens" (.arr []) = .arr screens) :
    lookupVar (extractVars d).1 "vocabulary_list" =
      .str (String.intercalate ", " (claimVocabItems screens)) := by
  obtain ⟨l1, l2, l3, l4, l5, l6⟩ := lookupVar_extract d
  rw [l2]
  simp only [refPart, hd]
  rw [foldl_refStep_vocab]
  cases hc : claimVocabItems screens with
  | nil =>
    simp [hc]
    rfl
  | cons x xs => simp [hc]

theorem mem_nonAllowed (name : String) (t : String) (hfound : name ∈ findTokens t)
    (hnot : name ∉ ALL_POSSIBLE_VARIABLES) : name ∈ nonAllowed t := by
  simp only [nonAllowed, List.mem_filter, List.mem_dedup]
  exact ⟨hfound, by simpa using hnot⟩

theorem generateSingle_warning (t : String) (fetched : List (String × JValue))
    (a : String) (hne : (nonAllowed t).isEmpty = false) :
    Msg.warning (String.intercalate ", " (nonAllowed t)) ∈
      (generateSingle t fetched a).msgs := by
  simp [generateSingle, hne]

theorem findTokens_occurrence (t : String) (name : String)
    (hfound : name ∈ findTokens t) : tokL name.data <:+: t.data := by
  simp only [findTokens, List.mem_map] at hfound
  obtain ⟨cl, hcl, hmk⟩ := hfound
  have hdata : cl = name.data := by rw [← hmk]
  rw [← hdata]
  exact findTokensF_sound _ _ _ hcl

/-- Claim C6, counterexample: the claim says a non-whitelisted token is left
completely unsubstituted and appears verbatim in every output, but when the
regex match overlaps a whitelisted exact token the replacement consumes part
of it: on the template of two opening braces followed by the
task_instruction token, the found token is the brace-prefixed name (not
whitelisted, so it does warn), yet the output is just the two braces and the
matched text does not appear in it. -/
theorem C6_counterexample :
    findTokens "\x7b\x7b\x7b\x7btask_instruction\x7d\x7d" = ["\x7b\x7btask_instruction"] ∧
    "\x7b\x7btask_instruction" ∉ ALL_POSSIBLE_VARIABLES ∧
    (generateSingle "\x7b\x7b\x7b\x7btask_instruction\x7d\x7d" [] "").outputs = ["\x7b\x7b"] ∧
    ¬ tokL ("\x7b\x7btask_instruction" : String).data <:+: ("\x7b\x7b" : String).data :=
  ⟨by decide, by decide, by decide, by decide⟩

/-- Claim C6, amended: every template token not in the whitelist is reported
through a warning and generation still proceeds and produces output; the
token is never itself used as a replacement pattern, and it appears verbatim
in every generated output (single and batch) provided its matched name
contains no brace characters; a matched name containing braces can be
partially consumed by an overlapping whitelisted-token replacement. -/
theorem C6_unknown_token_warned (t : String) (fetched : List (String × JValue))
    (a : String) (name : String) (hfound : name ∈ findTokens t)
    (hnot : name ∉ ALL_POSSIBLE_VARIABLES) (hbf : braceFree name.data = true) :
    name ∈ nonAllowed t ∧
    (∃ s, Msg.warning s ∈ (generateSingle t fetched a).msgs) ∧
    (generateSingle t fetched a).outputs.length = 1 ∧
    (∀ out ∈ (generateSingle t fetched a).outputs, tokL name.data <:+: out.data) ∧
    (∀ answers : List String, ∀ out ∈ (generateBatch t fetched answers).outputs,
      tokL name.data <:+: out.data) := by
  have hmemna : name ∈ nonAllowed t := mem_nonAllowed name t hfound hnot
  have hocc : tokL name.data <:+: t.data := findTokens_occurrence t name hfound
  have hnoteq : ∀ k ∈ ALL_POSSIBLE_VARIABLES, name ≠ k :=
    fun k hk he => hnot (he ▸ hk)
  have hne : (nonAllowed t).isEmpty = false := by
    cases hq : nonAllowed t with
    | nil => rw [hq] at hmemna; simp at hmemna
    | cons x xs => simp
  refine ⟨hmemna, ⟨_, generateSingle_warning t fetched a hne⟩, ?_, ?_, ?_⟩
  · rw [generateSingle_outputs]; rfl
  · intro out hout
    rw [generateSingle_outputs] at hout
    rw [List.mem_singleton.mp hout]
    exact fillOne_keeps_foreign_tok t fetched a name hbf hnoteq hocc
  · intro answers out hout
    rw [generateBatch_outputs] at hout
    obtain ⟨a2, _, rfl⟩ := List.mem_map.mp hout
    exact fillOne_keeps_foreign_tok t fetched a2 name hbf hnoteq hocc

/-- Witness for the amended C6 on a concrete template carrying an unknown
token next to a whitelisted one. -/
theorem C6_witness :
    "unknown_var" ∈ nonAllowed "\x7b\x7bunknown_var\x7d\x7d and \x7b\x7btask_instruction\x7d\x7d" ∧
    tokL ("unknown_var" : String).data <:+:
      (fillOne "\x7b\x7bunknown_var\x7d\x7d and \x7b\x7btask_instruction\x7d\x7d" [] "x").data := by
  have h := C6_unknown_token_warned
    "\x7b\x7bunknown_var\x7d\x7d and \x7b\x7btask_instruction\x7d\x7d"
    [] "x" "unknown_var" (by decide) (by decide) (by decide)
  exact ⟨h.1, h.2.2.2.1 _ (by rw [generateSingle_outputs]; exact List.mem_singleton.mpr rfl)⟩

/-- Witness for C8: the spec's own example document yields cat, dog. -/
theorem C8_witness :
    lookupVar (extractVars (.obj [("referenceScreens", .arr [.obj
      [("category", .str "vocabulary"),
       ("contents", .obj [("vocabularyList", .arr [.str "cat", .str "dog"])])]])])).1
      "vocabulary_list" = .str "cat, dog" := by
  have h := C8_vocabulary_collection
    (.obj [("referenceScreens", .arr [.obj
      [("category", .str "vocabulary"),
       ("contents", .obj [("vocabularyList", .arr [.str "cat", .str "dog"])])]])])
    [.obj [("category", .str "vocabulary"),
      ("contents", .obj [("vocabularyList", .arr [.str "cat", .str "dog"])])]] rfl
  rw [h]
  rfl

end PromptGen
